import Mathlib

/- Verification of the iNaturalist batch classification-and-organization
pipeline (src/inaturalist_uploader.py, src/example_usage.py,
src/upload_and_classify.py): a shallow embedding of the hierarchy
extraction, best-candidate selection, batch checkpointing and
file-organization logic, with theorems settling the specification's
claims against it.  Network and filesystem effects are represented by
explicit oracle inputs (the response a call returns, whether a move
raises), so every function below is pure and executable. -/

/-- One taxon node as it appears inside a scoring or lineage response.
`name` and `rank` model `taxon.get('name', '')` and
`taxon.get('rank', '')` in `extract_hierarchy`
(src/inaturalist_uploader.py): string-valued, with the empty string
standing for an absent key. -/
structure TaxonRec where
  name : String
  rank : String
deriving DecidableEq

/-- The lineage record returned by the taxa lookup
(`get_detailed_taxonomy` result, src/inaturalist_uploader.py): the
node's own fields plus its ancestor chain in root-to-parent order. -/
structure TaxonInfo where
  id : Option Nat
  name : String
  rank : String
  preferredCommonName : Option String
  ancestors : List TaxonRec
deriving DecidableEq

/-- The three-slot subfamily/tribe/genus projection built by
`extract_hierarchy` (src/inaturalist_uploader.py lines 160-164);
slots start as `None`. -/
structure Hierarchy where
  subfamily : Option String
  tribe : Option String
  genus : Option String
deriving DecidableEq

/-- The `current_taxon` dict built at src/inaturalist_uploader.py
lines 171-176 from the looked-up node's own fields. -/
def currentTaxonOf (ti : TaxonInfo) : TaxonRec :=
  { name := ti.name, rank := ti.rank }

/-- `all_taxa = ancestors + [current_taxon]`
(src/inaturalist_uploader.py line 177). -/
def allTaxaOf (ti : TaxonInfo) : List TaxonRec :=
  ti.ancestors ++ [currentTaxonOf ti]

/-- Python's `str.lower()` on the (ASCII) rank strings, written over the
character list so that it evaluates by kernel reduction. -/
def pyLower (s : String) : String :=
  String.mk (s.toList.map Char.toLower)

/-- One iteration of the rank-dispatch loop of `extract_hierarchy`
(src/inaturalist_uploader.py lines 179-189): lower-case the rank and
assign the node's name to the matching slot, `family` and `subfamily`
both writing the subfamily slot. -/
def rankStep (h : Hierarchy) (t : TaxonRec) : Hierarchy :=
  let rank := pyLower t.rank
  let name := t.name
  if rank = "family" then { h with subfamily := some name }
  else if rank = "subfamily" then { h with subfamily := some name }
  else if rank = "tribe" then { h with tribe := some name }
  else if rank = "genus" then { h with genus := some name }
  else h

/-- `INaturalistUploader.extract_hierarchy`
(src/inaturalist_uploader.py lines 150-200): scan
`ancestors + [current_taxon]` in order, starting from the all-`None`
hierarchy, dispatching each node by its lower-cased rank. -/
def extract_hierarchy (ti : TaxonInfo) : Hierarchy :=
  (allTaxaOf ti).foldl rankStep { subfamily := none, tribe := none, genus := none }

/-- C5: `ExtractHierarchy` on a lineage whose nodes carry ranks
family="Erebidae", tribe="Arctiini", genus="Spilosoma" and no node of
rank subfamily yields
subfamily="Erebidae", tribe="Arctiini", genus="Spilosoma": a
family-rank node fills the subfamily slot when no explicit subfamily
rank is present. -/
theorem C5_family_fills_subfamily_slot :
    extract_hierarchy
      { id := some 1
        name := "Spilosoma congrua"
        rank := "species"
        preferredCommonName := none
        ancestors :=
          [ { name := "Erebidae", rank := "family" },
            { name := "Arctiini", rank := "tribe" },
            { name := "Spilosoma", rank := "genus" } ] }
      = { subfamily := some "Erebidae", tribe := some "Arctiini",
          genus := some "Spilosoma" } := by
  decide

/-- Stated from the spec's words for the last-write-wins claim: the name
of the later-most element of the list satisfying `p`, or `none` when no
element does. -/
def lastRankName (p : TaxonRec → Bool) : List TaxonRec → Option String
  | [] => none
  | t :: l =>
    match lastRankName p l with
    | some n => some n
    | none => if p t then some t.name else none

/-- The first option if it is set, otherwise the default. -/
def lastOr (o : Option String) (d : Option String) : Option String :=
  match o with
  | some n => some n
  | none => d

/-- A node writes the genus slot exactly when its lower-cased rank is
`"genus"`; otherwise the slot passes through. -/
theorem rankStep_genus (h : Hierarchy) (t : TaxonRec) :
    (rankStep h t).genus =
      if pyLower t.rank = "genus" then some t.name else h.genus := by
  unfold rankStep
  by_cases h1 : pyLower t.rank = "family" <;>
    by_cases h2 : pyLower t.rank = "subfamily" <;>
    by_cases h3 : pyLower t.rank = "tribe" <;>
    by_cases h4 : pyLower t.rank = "genus" <;>
    simp_all

/-- A node writes the tribe slot exactly when its lower-cased rank is
`"tribe"`. -/
theorem rankStep_tribe (h : Hierarchy) (t : TaxonRec) :
    (rankStep h t).tribe =
      if pyLower t.rank = "tribe" then some t.name else h.tribe := by
  unfold rankStep
  by_cases h1 : pyLower t.rank = "family" <;>
    by_cases h2 : pyLower t.rank = "subfamily" <;>
    by_cases h3 : pyLower t.rank = "tribe" <;>
    by_cases h4 : pyLower t.rank = "genus" <;>
    simp_all

/-- A node writes the subfamily slot exactly when its lower-cased rank
is `"family"` or `"subfamily"`. -/
theorem rankStep_subfamily (h : Hierarchy) (t : TaxonRec) :
    (rankStep h t).subfamily =
      if pyLower t.rank = "family" ∨ pyLower t.rank = "subfamily"
      then some t.name else h.subfamily := by
  unfold rankStep
  by_cases h1 : pyLower t.rank = "family" <;>
    by_cases h2 : pyLower t.rank = "subfamily" <;>
    by_cases h3 : pyLower t.rank = "tribe" <;>
    by_cases h4 : pyLower t.rank = "genus" <;>
    simp_all

/-- Folding the rank dispatch over a node list leaves in the genus slot
the later-most genus-ranked node, falling back to the initial slot. -/
theorem foldl_rankStep_genus (l : List TaxonRec) (h : Hierarchy) :
    (l.foldl rankStep h).genus =
      lastOr (lastRankName (fun t => pyLower t.rank == "genus") l) h.genus := by
  induction l generalizing h with
  | nil => rfl
  | cons t l ih =>
    rw [List.foldl_cons, ih, lastRankName]
    cases hl : lastRankName (fun t => pyLower t.rank == "genus") l with
    | some n => rfl
    | none =>
      simp only [lastOr, rankStep_genus]
      by_cases hg : pyLower t.rank = "genus" <;> simp [hg]

/-- Same characterization for the tribe slot. -/
theorem foldl_rankStep_tribe (l : List TaxonRec) (h : Hierarchy) :
    (l.foldl rankStep h).tribe =
      lastOr (lastRankName (fun t => pyLower t.rank == "tribe") l) h.tribe := by
  induction l generalizing h with
  | nil => rfl
  | cons t l ih =>
    rw [List.foldl_cons, ih, lastRankName]
    cases hl : lastRankName (fun t => pyLower t.rank == "tribe") l with
    | some n => rfl
    | none =>
      simp only [lastOr, rankStep_tribe]
      by_cases hg : pyLower t.rank = "tribe" <;> simp [hg]

/-- Same characterization for the subfamily slot, which both `family`-
and `subfamily`-ranked nodes write. -/
theorem foldl_rankStep_subfamily (l : List TaxonRec) (h : Hierarchy) :
    (l.foldl rankStep h).subfamily =
      lastOr
        (lastRankName
          (fun t => pyLower t.rank == "family" || pyLower t.rank == "subfamily") l)
        h.subfamily := by
  induction l generalizing h with
  | nil => rfl
  | cons t l ih =>
    rw [List.foldl_cons, ih, lastRankName]
    cases hl :
        lastRankName
          (fun t => pyLower t.rank == "family" || pyLower t.rank == "subfamily") l with
    | some n => rfl
    | none =>
      simp only [lastOr, rankStep_subfamily]
      by_cases h1 : pyLower t.rank = "family" <;>
        by_cases h2 : pyLower t.rank = "subfamily" <;> simp [h1, h2]

/-- C6: `ExtractHierarchy` scans ancestors-then-node in order and
assigns each recognized rank (compared case-insensitively) to its slot
with overwrite semantics: each slot holds the later-most node of the
matching rank, so a lineage containing two genus-ranked nodes yields
the later-occurring node's name in the genus slot (shown both as the
general last-write-wins characterization of all three slots and on a
concrete duplicate-genus lineage). -/
theorem C6_last_write_wins :
    (∀ ti : TaxonInfo,
      (extract_hierarchy ti).genus =
        lastRankName (fun t => pyLower t.rank == "genus") (allTaxaOf ti) ∧
      (extract_hierarchy ti).tribe =
        lastRankName (fun t => pyLower t.rank == "tribe") (allTaxaOf ti) ∧
      (extract_hierarchy ti).subfamily =
        lastRankName
          (fun t => pyLower t.rank == "family" || pyLower t.rank == "subfamily")
          (allTaxaOf ti)) ∧
    (extract_hierarchy
        { id := some 2
          name := "Spilosoma congrua"
          rank := "species"
          preferredCommonName := none
          ancestors :=
            [ { name := "FirstGenus", rank := "Genus" },
              { name := "SecondGenus", rank := "genus" } ] }).genus
      = some "SecondGenus" := by
  constructor
  · intro ti
    unfold extract_hierarchy
    refine ⟨?_, ?_, ?_⟩
    · rw [foldl_rankStep_genus]
      cases lastRankName (fun t => pyLower t.rank == "genus") (allTaxaOf ti) <;> rfl
    · rw [foldl_rankStep_tribe]
      cases lastRankName (fun t => pyLower t.rank == "tribe") (allTaxaOf ti) <;> rfl
    · rw [foldl_rankStep_subfamily]
      cases lastRankName
          (fun t => pyLower t.rank == "family" || pyLower t.rank == "subfamily")
          (allTaxaOf ti) <;> rfl
  · decide

/-- A taxon object carried inside a scoring candidate (`taxon.get('id')`,
`taxon.get('name')`, `taxon.get('preferred_common_name')`). -/
structure Taxon where
  id : Option Nat
  name : Option String
  preferredCommonName : Option String
deriving DecidableEq

/-- One entry of the scoring service's candidate list: an optional
`score` and an optional `taxon` sub-object.  Scores are the service's
decimal numbers; only their ordering matters here, so they are embedded
as rationals. -/
structure ScoreCandidate where
  score : Option Rat
  taxon : Option Taxon
deriving DecidableEq

/-- The sort key `lambda x: x.get('score', 0)` used at
src/upload_and_classify.py line 79. -/
def candKey (c : ScoreCandidate) : Rat :=
  c.score.getD 0

/-- The accumulator loop of Python's builtin `max`: starting from the
first element, replace the current best only when a later element's key
is strictly greater (so the first occurrence of the maximum wins). -/
def maxFold {A : Type} (key : A → Rat) (b : A) (xs : List A) : A :=
  xs.foldl (fun m y => if key y > key m then y else m) b

/-- `max(results, key=...)` (src/upload_and_classify.py line 79):
`none` on an empty list, which in the source is unreachable because of
the emptiness check just above. -/
def pyMaxBy {A : Type} (key : A → Rat) : List A → Option A
  | [] => none
  | x :: xs => some (maxFold key x xs)

/-- The candidate-selection step of `INatClassifier.upload_and_classify`
(src/upload_and_classify.py lines 73-85): empty `results` is skipped
(`None` here), otherwise the `taxon` field of the max-score entry, the
skip on a missing `taxon` likewise becoming `None`. -/
def bestMatchTaxon (results : List ScoreCandidate) : Option Taxon :=
  match pyMaxBy candKey results with
  | none => none
  | some best => best.taxon

/-- The scoring response as consumed by
`INaturalistUploader.get_best_classification`: the `common_ancestor`
member is a single scored entry, `none` when the key is absent or its
value empty (both falsy in the source). -/
structure CVResult where
  commonAncestor : Option ScoreCandidate
deriving DecidableEq

/-- `INaturalistUploader.get_best_classification`
(src/inaturalist_uploader.py lines 89-118): no `common_ancestor` entry
means no candidates (`None`); otherwise the entry's `taxon` is returned,
a missing/falsy `taxon` again giving `None`. -/
def get_best_classification (cv : CVResult) : Option Taxon :=
  match cv.commonAncestor with
  | none => none
  | some best => best.taxon

/-- The Python `max` accumulator returns the first maximal element: it
occurs in `b :: xs`, everything strictly before it has a strictly
smaller key, and nothing in `b :: xs` has a larger key. -/
theorem maxFold_first_max {A : Type} (key : A → Rat) :
    ∀ (xs : List A) (b : A),
      ∃ pre post, b :: xs = pre ++ maxFold key b xs :: post ∧
        (∀ y ∈ pre, key y < key (maxFold key b xs)) ∧
        (∀ y ∈ b :: xs, key y ≤ key (maxFold key b xs)) := by
  intro xs
  induction xs with
  | nil =>
    intro b
    exact ⟨[], [], rfl, by simp, by simp [maxFold]⟩
  | cons y ys ih =>
    intro b
    by_cases hgt : key y > key b
    · have hfold : maxFold key b (y :: ys) = maxFold key y ys := by
        simp [maxFold, hgt]
      rw [hfold]
      obtain ⟨pre, post, heq, hpre, hall⟩ := ih y
      refine ⟨b :: pre, post, ?_, ?_, ?_⟩
      · rw [List.cons_append, ← heq]
      · intro z hz
        rcases List.mem_cons.mp hz with hz | hz
        · subst hz
          exact lt_of_lt_of_le hgt (hall y (List.mem_cons_self y ys))
        · exact hpre z hz
      · intro z hz
        rcases List.mem_cons.mp hz with hz | hz
        · subst hz
          exact le_of_lt (lt_of_lt_of_le hgt (hall y (List.mem_cons_self y ys)))
        · exact hall z hz
    · have hyb : key y ≤ key b := le_of_not_lt hgt
      have hfold : maxFold key b (y :: ys) = maxFold key b ys := by
        simp [maxFold, hgt]
      rw [hfold]
      obtain ⟨pre, post, heq, hpre, hall⟩ := ih b
      cases pre with
      | nil =>
        simp only [List.nil_append, List.cons.injEq] at heq
        obtain ⟨hb, hpost⟩ := heq
        refine ⟨[], y :: ys, by rw [List.nil_append, ← hb], by simp, ?_⟩
        intro z hz
        rw [← hb]
        rcases List.mem_cons.mp hz with hz | hz
        · subst hz
          exact le_refl _
        · rcases List.mem_cons.mp hz with hz | hz
          · subst hz
            exact hyb
          · have h2 := hall z (List.mem_cons_of_mem b hz)
            rw [← hb] at h2
            exact h2
      | cons p ps =>
        simp only [List.cons_append, List.cons.injEq] at heq
        obtain ⟨hpb, hys⟩ := heq
        have hbmem : b ∈ p :: ps := by
          rw [← hpb]
          exact List.mem_cons_self b ps
        have hblt : key b < key (maxFold key b ys) := hpre b hbmem
        refine ⟨b :: y :: ps, post, ?_, ?_, ?_⟩
        · show b :: y :: ys = b :: y :: (ps ++ maxFold key b ys :: post)
          rw [← hys]
        · intro z hz
          rcases List.mem_cons.mp hz with hz | hz
          · subst hz
            exact hblt
          · rcases List.mem_cons.mp hz with hz | hz
            · subst hz
              exact lt_of_le_of_lt hyb hblt
            · exact hpre z (List.mem_cons_of_mem p hz)
        · intro z hz
          rcases List.mem_cons.mp hz with hz | hz
          · subst hz
            exact le_of_lt hblt
          · rcases List.mem_cons.mp hz with hz | hz
            · subst hz
              exact le_of_lt (lt_of_le_of_lt hyb hblt)
            · exact hall z (List.mem_cons_of_mem b hz)

/-- C1: for every scoring response, the pipeline selects the
highest-score entry of the best-match candidate set, ties broken by
first occurrence in the service's returned order, and yields `None`
when there are no candidates or the selected entry has no taxon field.
Conjunct one and two settle this for the candidate-list selection of
`upload_and_classify`; conjunct three for `get_best_classification`,
whose candidate set is the response's single optional `common_ancestor`
entry. -/
theorem C1_highest_score_selection :
    (bestMatchTaxon [] = none) ∧
    (∀ l : List ScoreCandidate, l ≠ [] →
      ∃ best pre post, l = pre ++ best :: post ∧
        pyMaxBy candKey l = some best ∧
        (∀ c ∈ l, candKey c ≤ candKey best) ∧
        (∀ c ∈ pre, candKey c < candKey best) ∧
        bestMatchTaxon l = best.taxon) ∧
    (∀ cv : CVResult,
      get_best_classification cv = cv.commonAncestor.bind (fun c => c.taxon)) := by
  refine ⟨rfl, ?_, ?_⟩
  · intro l hl
    match l with
    | [] => exact absurd rfl hl
    | x :: xs =>
      obtain ⟨pre, post, heq, hpre, hall⟩ := maxFold_first_max candKey xs x
      exact ⟨maxFold candKey x xs, pre, post, heq, rfl, fun c hc => hall c hc,
        hpre, rfl⟩
  · intro cv
    cases h : cv.commonAncestor <;> simp [get_best_classification, h]

/-- Closed instance of C1: on a concrete two-candidate list whose
second entry scores higher, the selection picks the second entry and
returns its taxon. -/
theorem C1_witness :
    ([ { score := some 1, taxon := none },
       { score := some 2,
         taxon := some { id := some 7, name := some "Spilosoma",
                         preferredCommonName := none } } ]
      : List ScoreCandidate) ≠ [] ∧
    (∃ best pre post,
      ([ { score := some 1, taxon := none },
         { score := some 2,
           taxon := some { id := some 7, name := some "Spilosoma",
                           preferredCommonName := none } } ]
        : List ScoreCandidate) = pre ++ best :: post ∧
      pyMaxBy candKey
          [ { score := some 1, taxon := none },
            { score := some 2,
              taxon := some { id := some 7, name := some "Spilosoma",
                              preferredCommonName := none } } ] = some best ∧
      (∀ c ∈ ([ { score := some 1, taxon := none },
                { score := some 2,
                  taxon := some { id := some 7, name := some "Spilosoma",
                                  preferredCommonName := none } } ]
              : List ScoreCandidate), candKey c ≤ candKey best) ∧
      (∀ c ∈ pre, candKey c < candKey best) ∧
      bestMatchTaxon
          [ { score := some 1, taxon := none },
            { score := some 2,
              taxon := some { id := some 7, name := some "Spilosoma",
                              preferredCommonName := none } } ] = best.taxon) :=
  ⟨by decide,
   C1_highest_score_selection.2.1
     [ { score := some 1, taxon := none },
       { score := some 2,
         taxon := some { id := some 7, name := some "Spilosoma",
                         preferredCommonName := none } } ]
     (by decide)⟩

/-- Appending a per-image outcome to the accumulated result list:
`if result: all_results.append(result)` (src/example_usage.py
lines 60-64). -/
def appendResult {Img R : Type} (classify : Img → Option R)
    (acc : List R) (img : Img) : List R :=
  match classify img with
  | some r => acc ++ [r]
  | none => acc

/-- The enumerated per-file loop of `batch_process_images`
(src/example_usage.py lines 54-74): `i` is the 1-based index of the
next file; every file is scored once (third component counts the
scoring calls), a non-null result is appended, and after each file
whose index is divisible by 10 the full accumulated list is written
(second component lists the checkpoint writes, in order). -/
def batchLoop {Img R : Type} (classify : Img → Option R) :
    List Img → Nat → List R → List R × List (List R) × Nat
  | [], _, acc => (acc, [], 0)
  | img :: rest, i, acc =>
    let acc' := appendResult classify acc img
    let out := batchLoop classify rest (i + 1) acc'
    (out.1, (if i % 10 = 0 then acc' :: out.2.1 else out.2.1), out.2.2 + 1)

/-- `batch_process_images` (src/example_usage.py lines 19-83).  The
checkpoint file's state is an explicit input: `none` when the file is
absent, `some none` when it exists but fails to parse, `some (some l)`
when it exists and parses to `l`.  Output: the returned result list,
the sequence of checkpoint writes (each a full overwrite with the list
written), and the number of scoring-capability invocations. -/
def batch_process_images {Img R : Type} (classify : Img → Option R)
    (imgs : List Img) (checkpoint : Option (Option (List R))) :
    List R × List (List R) × Nat :=
  match checkpoint with
  | some (some existing) => (existing, [], 0)
  | _ =>
    let out := batchLoop classify imgs 1 []
    (out.1, out.2.1 ++ [out.1], out.2.2)

/-- The appended outcome, rephrased through `filterMap` on the
singleton list. -/
theorem appendResult_eq {Img R : Type} (classify : Img → Option R)
    (acc : List R) (img : Img) :
    appendResult classify acc img = acc ++ List.filterMap classify [img] := by
  cases h : classify img <;> simp [appendResult, h]

/-- The loop returns the initial accumulator extended with the
successful classifications, in input order. -/
theorem batchLoop_results {Img R : Type} (classify : Img → Option R) :
    ∀ (imgs : List Img) (i : Nat) (acc : List R),
      (batchLoop classify imgs i acc).1 = acc ++ imgs.filterMap classify := by
  intro imgs
  induction imgs with
  | nil =>
    intro i acc
    simp [batchLoop]
  | cons img rest ih =>
    intro i acc
    simp only [batchLoop]
    rw [ih, appendResult_eq]
    cases h : classify img <;> simp [h]

/-- The loop invokes the scoring capability once per file. -/
theorem batchLoop_calls {Img R : Type} (classify : Img → Option R) :
    ∀ (imgs : List Img) (i : Nat) (acc : List R),
      (batchLoop classify imgs i acc).2.2 = imgs.length := by
  intro imgs
  induction imgs with
  | nil =>
    intro i acc
    rfl
  | cons img rest ih =>
    intro i acc
    simp only [batchLoop, List.length_cons]
    rw [ih]

/-- The loop's checkpoint writes: one write after the j-th file (1-based
index `i + j - 1` counted from the loop's starting index) exactly when
that index is divisible by 10, each write holding the accumulator of
everything processed so far. -/
theorem batchLoop_writes {Img R : Type} (classify : Img → Option R) :
    ∀ (imgs : List Img) (i : Nat) (acc : List R),
      (batchLoop classify imgs i acc).2.1 =
        (List.range imgs.length).filterMap
          (fun j => if (i + j) % 10 = 0
            then some (acc ++ (imgs.take (j+1)).filterMap classify)
            else none) := by
  intro imgs
  induction imgs with
  | nil =>
    intro i acc
    rfl
  | cons img rest ih =>
    intro i acc
    have htail :
        ((fun j => if (i + j) % 10 = 0
            then some (acc ++ ((img :: rest).take (j+1)).filterMap classify)
            else none) ∘ Nat.succ)
        = (fun j => if ((i + 1) + j) % 10 = 0
            then some ((appendResult classify acc img)
              ++ ((rest.take (j+1)).filterMap classify))
            else none) := by
      funext j
      simp only [Function.comp_apply]
      have harith : i + Nat.succ j = (i + 1) + j := by omega
      rw [harith]
      have htake : (img :: rest).take (Nat.succ j + 1) = img :: rest.take (j + 1) := by
        rfl
      rw [htake, appendResult_eq]
      cases hc : classify img <;> simp [hc, List.filterMap_cons]
    simp only [batchLoop]
    rw [ih, List.length_cons, List.range_succ_eq_map, List.filterMap_cons,
      List.filterMap_map, htail]
    by_cases hi : i % 10 = 0
    · have h0 : (i + 0) % 10 = 0 := by simpa using hi
      rw [if_pos hi, if_pos h0, appendResult_eq]
      rfl
    · have h0 : ¬ (i + 0) % 10 = 0 := by simpa using hi
      rw [if_neg hi, if_neg h0]

/-- Arithmetic bridge: starting from 1-based index 1, the positions
whose index is divisible by 10 are exactly 10, 20, …, 10 * (n / 10). -/
theorem range_filterMap_tens {B : Type} (g : Nat → B) :
    ∀ n : Nat,
      (List.range n).filterMap
          (fun j => if (1 + j) % 10 = 0 then some (g (j+1)) else none)
        = (List.range (n / 10)).map (fun m => g (10 * (m + 1))) := by
  intro n
  induction n with
  | zero => rfl
  | succ n ih =>
    rw [List.range_succ, List.filterMap_append, ih]
    by_cases h : (1 + n) % 10 = 0
    · have hdiv : (n + 1) / 10 = n / 10 + 1 := by omega
      have hval : 10 * (n / 10 + 1) = n + 1 := by omega
      rw [hdiv, List.range_succ, List.map_append]
      simp [h, hval]
    · have hdiv : (n + 1) / 10 = n / 10 := by omega
      rw [hdiv]
      simp [h]

/-- The number of successful classifications, as a `countP`. -/
theorem length_filterMap_eq_countP {A B : Type} (f : A → Option B) :
    ∀ l : List A, (l.filterMap f).length = l.countP (fun a => (f a).isSome) := by
  intro l
  induction l with
  | nil => rfl
  | cons a l ih =>
    rw [List.filterMap_cons, List.countP_cons]
    cases h : f a <;> simp [h, ih]

/-- C3: if the checkpoint file exists and parses, the batch runner
returns exactly its contents, performs no checkpoint write and invokes
the scoring capability zero times, for any folder contents; when the
file is absent or fails to parse it processes the images, scoring each
one once. -/
theorem C3_idempotent_resume {Img R : Type} (classify : Img → Option R)
    (imgs : List Img) :
    (∀ existing : List R,
      batch_process_images classify imgs (some (some existing))
        = (existing, [], 0)) ∧
    (∀ cp : Option (Option (List R)), cp = none ∨ cp = some none →
      (batch_process_images classify imgs cp).1 = imgs.filterMap classify ∧
      (batch_process_images classify imgs cp).2.2 = imgs.length) := by
  constructor
  · intro existing
    rfl
  · intro cp hcp
    have hres : ∀ i acc, (batchLoop classify imgs i acc).1 = acc ++ imgs.filterMap classify :=
      fun i acc => batchLoop_results classify imgs i acc
    have hcalls : ∀ i acc, (batchLoop classify imgs i acc).2.2 = imgs.length :=
      fun i acc => batchLoop_calls classify imgs i acc
    rcases hcp with h | h <;> subst h <;>
      exact ⟨by simp [batch_process_images, hres], by simp [batch_process_images, hcalls]⟩

/-- Closed instance of C3: a parsed checkpoint is returned untouched
with zero scoring calls; an absent checkpoint makes the runner process
and score the two images. -/
theorem C3_witness :
    (batch_process_images (fun n : Nat => some n) [1, 2] (some (some [5]))
      = ([5], [], 0)) ∧
    (batch_process_images (fun n : Nat => some n) [1, 2] none).1 = [1, 2] ∧
    (batch_process_images (fun n : Nat => some n) [1, 2] none).2.2 = 2 := by
  have h := C3_idempotent_resume (fun n : Nat => some n) [1, 2]
  have h2 := h.2 none (Or.inl rfl)
  exact ⟨h.1 [5], by rw [h2.1]; rfl, by rw [h2.2]; rfl⟩

/-- C4: with no usable checkpoint, the runner overwrites the checkpoint
file with the full accumulated list after every 10th processed image
(successes and failures both count toward the cadence) and once more at
batch end; the final write is the full success list, whose length is
the number of successful classifications. -/
theorem C4_checkpoint_cadence {Img R : Type} (classify : Img → Option R)
    (imgs : List Img) (hn : 10 ≤ imgs.length) :
    (batch_process_images classify imgs none).2.1 =
      ((List.range (imgs.length / 10)).map
        (fun m => (imgs.take (10 * (m + 1))).filterMap classify))
      ++ [imgs.filterMap classify] ∧
    ((batch_process_images classify imgs none).2.1).getLast?
      = some (imgs.filterMap classify) ∧
    (imgs.filterMap classify).length
      = imgs.countP (fun img => (classify img).isSome) := by
  have hfun :
      (fun j => if (1 + j) % 10 = 0
        then some (([] : List R) ++ (imgs.take (j+1)).filterMap classify)
        else none)
      = (fun j => if (1 + j) % 10 = 0
        then some ((imgs.take (j+1)).filterMap classify)
        else none) := by
    funext j
    rw [List.nil_append]
  have hw : (batch_process_images classify imgs none).2.1
      = ((List.range (imgs.length / 10)).map
          (fun m => (imgs.take (10 * (m + 1))).filterMap classify))
        ++ [imgs.filterMap classify] := by
    show (batchLoop classify imgs 1 []).2.1 ++ [(batchLoop classify imgs 1 []).1] = _
    rw [batchLoop_results, batchLoop_writes, List.nil_append, hfun,
      range_filterMap_tens (fun k => (imgs.take k).filterMap classify) imgs.length]
  refine ⟨hw, ?_, length_filterMap_eq_countP classify imgs⟩
  rw [hw]
  exact List.getLast?_concat _

/-- Closed instance of C4 on a 12-image batch where the odd-indexed
images fail: the cadence hypothesis holds and the characterization
applies. -/
theorem C4_witness :
    10 ≤ ([0, 1, 2, 3, 4, 5, 6, 7, 8, 9, 10, 11] : List Nat).length ∧
    (batch_process_images
        (fun n : Nat => if n % 2 = 0 then some n else none)
        [0, 1, 2, 3, 4, 5, 6, 7, 8, 9, 10, 11] none).2.1 =
      ((List.range (([0, 1, 2, 3, 4, 5, 6, 7, 8, 9, 10, 11] : List Nat).length / 10)).map
        (fun m => (([0, 1, 2, 3, 4, 5, 6, 7, 8, 9, 10, 11] : List Nat).take (10 * (m + 1))).filterMap
          (fun n : Nat => if n % 2 = 0 then some n else none)))
      ++ [([0, 1, 2, 3, 4, 5, 6, 7, 8, 9, 10, 11] : List Nat).filterMap
            (fun n : Nat => if n % 2 = 0 then some n else none)] ∧
    ((batch_process_images
        (fun n : Nat => if n % 2 = 0 then some n else none)
        [0, 1, 2, 3, 4, 5, 6, 7, 8, 9, 10, 11] none).2.1).getLast?
      = some (([0, 1, 2, 3, 4, 5, 6, 7, 8, 9, 10, 11] : List Nat).filterMap
          (fun n : Nat => if n % 2 = 0 then some n else none)) ∧
    (([0, 1, 2, 3, 4, 5, 6, 7, 8, 9, 10, 11] : List Nat).filterMap
        (fun n : Nat => if n % 2 = 0 then some n else none)).length
      = ([0, 1, 2, 3, 4, 5, 6, 7, 8, 9, 10, 11] : List Nat).countP
          (fun n => ((if n % 2 = 0 then some n else none : Option Nat)).isSome) :=
  ⟨by decide,
   C4_checkpoint_cadence (fun n : Nat => if n % 2 = 0 then some n else none)
     [0, 1, 2, 3, 4, 5, 6, 7, 8, 9, 10, 11] (by decide)⟩

/-- The per-image record assembled at the end of `process_image`
(src/inaturalist_uploader.py lines 242-251); `photo_id` is `None`
because the upload step is commented out in the source. -/
structure ClassificationResult where
  imagePath : String
  photoId : Option Nat
  taxonId : Option Nat
  taxonName : Option String
  commonName : Option String
  score : Rat
  hierarchy : Hierarchy
deriving DecidableEq

/-- The responses the two network calls of `process_image` would
return for one image: the scoring call (`classify_image`, `none` for a
transport error or non-200 status) and the lineage lookup
(`get_detailed_taxonomy`, by taxon id). -/
structure NetOracle where
  classifyResp : Option CVResult
  taxaResp : Nat → Option TaxonInfo

/-- `INaturalistUploader.process_image` (src/inaturalist_uploader.py
lines 202-263): scoring call, best classification, taxon id check,
lineage lookup, hierarchy extraction, record assembly; every failed
stage returns `None`. -/
def process_image (net : NetOracle) (imagePath : String) :
    Option ClassificationResult :=
  match net.classifyResp with
  | none => none
  | some cv =>
    match get_best_classification cv with
    | none => none
    | some taxon =>
      match taxon.id with
      | none => none
      | some tid =>
        match net.taxaResp tid with
        | none => none
        | some info =>
          some { imagePath := imagePath
                 photoId := none
                 taxonId := some tid
                 taxonName := taxon.name
                 commonName := taxon.preferredCommonName
                 score := match cv.commonAncestor with
                   | some ca => ca.score.getD 0
                   | none => 0
                 hierarchy := extract_hierarchy info }

/-- C9: a single image's classification failure never aborts the
batch: in a batch of five images where the third image's scoring call
fails and the others classify successfully, the returned result list
has length four and preserves the relative order of the other four
results. -/
theorem C9_partial_failure_isolation
    (net : String → NetOracle) (p1 p2 p3 p4 p5 : String)
    (r1 r2 r4 r5 : ClassificationResult)
    (h1 : process_image (net p1) p1 = some r1)
    (h2 : process_image (net p2) p2 = some r2)
    (h3 : (net p3).classifyResp = none)
    (h4 : process_image (net p4) p4 = some r4)
    (h5 : process_image (net p5) p5 = some r5) :
    (batch_process_images (fun p => process_image (net p) p)
        [p1, p2, p3, p4, p5] none).1 = [r1, r2, r4, r5] := by
  have h3' : process_image (net p3) p3 = none := by
    unfold process_image
    rw [h3]
  show (batchLoop (fun p => process_image (net p) p) [p1, p2, p3, p4, p5] 1 []).1 = _
  rw [batchLoop_results, List.nil_append]
  simp [List.filterMap_cons, h1, h2, h3', h4, h5]

/-- A concrete lineage record for the C9 witness. -/
def wTaxonInfo : TaxonInfo :=
  { id := some 42, name := "Spilosoma", rank := "genus",
    preferredCommonName := none,
    ancestors := [ { name := "Erebidae", rank := "family" } ] }

/-- The scoring response every successful image receives in the C9
witness oracle. -/
def wCV : CVResult :=
  { commonAncestor := some
      { score := some 1
        taxon := some { id := some 42, name := some "Spilosoma",
                        preferredCommonName := none } } }

/-- A concrete network oracle for the C9 witness: image "c" suffers a
scoring failure, every other image classifies to taxon 42. -/
def wNet (p : String) : NetOracle :=
  if p = "c" then { classifyResp := none, taxaResp := fun _ => none }
  else
    { classifyResp := some wCV
      taxaResp := fun tid => if tid = 42 then some wTaxonInfo else none }

/-- The record `process_image` assembles for a successful image under
`wNet`. -/
def wRes (p : String) : ClassificationResult :=
  { imagePath := p, photoId := none, taxonId := some 42,
    taxonName := some "Spilosoma", commonName := none, score := 1,
    hierarchy := { subfamily := some "Erebidae", tribe := none,
                   genus := some "Spilosoma" } }

/-- Closed instance of C9: five concrete images, the third failing at
the scoring call, give the four other results in order. -/
theorem C9_witness :
    (batch_process_images (fun p => process_image (wNet p) p)
        ["a", "b", "c", "d", "e"] none).1
      = [wRes "a", wRes "b", wRes "d", wRes "e"] :=
  C9_partial_failure_isolation wNet "a" "b" "c" "d" "e"
    (wRes "a") (wRes "b") (wRes "d") (wRes "e")
    (by decide) (by decide) (by decide) (by decide) (by decide)

/-- `os.path.basename` over a '/'-separated path: the characters after
the last separator. -/
def basenameChars (l : List Char) : List Char :=
  (l.reverse.takeWhile (fun c => !(c == '/'))).reverse

/-- `os.path.basename(image_path)` (src/example_usage.py line 206). -/
def basename (p : String) : String :=
  String.mk (basenameChars p.toList)

/-- Split a bare filename at its last dot: `some (before, after)` when
a dot exists, the dot itself belonging to neither part. -/
def splitAtLastDot : List Char → Option (List Char × List Char)
  | [] => none
  | c :: cs =>
    match splitAtLastDot cs with
    | some (a, b) => some (c :: a, b)
    | none => if c == '.' then some ([], cs) else none

/-- The root part of `os.path.splitext` on a bare filename: everything
before the last dot, except that a name whose characters before the
last dot are all dots (including none at all, e.g. ".XMP") does not
split. -/
def splitextRootChars (name : List Char) : List Char :=
  match splitAtLastDot name with
  | none => name
  | some (a, _) => if a.all (fun c => c == '.') then name else a

/-- The extension part of `os.path.splitext` on a bare filename,
including its leading dot; empty when the name does not split. -/
def splitextExtChars (name : List Char) : List Char :=
  match splitAtLastDot name with
  | none => []
  | some (a, b) => if a.all (fun c => c == '.') then [] else '.' :: b

/-- `base_name = os.path.splitext(filename)[0]`
(src/example_usage.py line 214). -/
def stemOfFilename (f : String) : String :=
  String.mk (splitextRootChars f.toList)

/-- Python's `x or default` where `x` is `None` or a string: the
default replaces `None` and the empty string (both falsy), as in
`hierarchy['subfamily'] or "未知亚科"` (src/example_usage.py
lines 198-200). -/
def pyOr (o : Option String) (d : String) : String :=
  match o with
  | some s => if s = "" then d else s
  | none => d

/-- `os.path.join` for the two-component joins used here. -/
def joinPath (a b : String) : String :=
  a ++ "/" ++ b

/-- The target directory `target_base_dir/subfamily/tribe/genus` with
the three fixed placeholders for missing slots (src/example_usage.py
lines 198-202). -/
def targetDirOf (base : String) (r : ClassificationResult) : String :=
  joinPath
    (joinPath (joinPath base (pyOr r.hierarchy.subfamily "未知亚科"))
      (pyOr r.hierarchy.tribe "未知族"))
    (pyOr r.hierarchy.genus "未知属")

/-- The sibling test of the sidecar loop:
`file.startswith(base_name + '.') and file != filename`
(src/example_usage.py line 222). -/
def isSiblingFile (baseName filename file : String) : Bool :=
  (baseName ++ ".").toList.isPrefixOf file.toList && !(file == filename)

/-- The filesystem's responses for one result's moves: whether the
primary `shutil.move` succeeds, what `os.listdir(source_dir)` returns,
and whether each individual sidecar `shutil.move` succeeds. -/
structure MoveOracle where
  primaryOk : Bool
  listing : List String
  sidecarOk : String → Bool

/-- The sidecar loop at src/example_usage.py lines 221-227, with
Python exception semantics: each sibling file is moved in listing
order; the first failing move raises, so later entries are not
attempted.  Returns the files on which a move was attempted, in order,
and whether the loop completed without raising. -/
def moveSiblings (ok : String → Bool) (baseName filename : String) :
    List String → List String × Bool
  | [] => ([], true)
  | f :: fs =>
    if isSiblingFile baseName filename f then
      if ok f then
        let out := moveSiblings ok baseName filename fs
        (f :: out.1, out.2)
      else ([f], false)
    else moveSiblings ok baseName filename fs

/-- The outcome of processing one result inside
`move_images_by_classification`: the (possibly rewritten) result, the
computed target directory (destination of the primary file and of every
attempted sidecar move), the sidecar files on which a move was
attempted, and this result's contributions to the moved/skipped
tallies. -/
structure MoveStep where
  newResult : ClassificationResult
  targetDir : String
  sidecarsTried : List String
  movedInc : Nat
  skippedInc : Nat
deriving DecidableEq

/-- One iteration of the `for result in results` loop of
`move_images_by_classification` (src/example_usage.py lines 193-234):
the whole body sits in one `try`, so a failing primary move skips the
result outright, while a failing sidecar move occurs after
`moved_count` was already incremented and aborts the rest of the body
(remaining sidecars and the `image_path` update), adding a skip. -/
def processResult (base : String) (o : MoveOracle)
    (r : ClassificationResult) : MoveStep :=
  let filename := basename r.imagePath
  let targetDir := targetDirOf base r
  let targetPath := joinPath targetDir filename
  if o.primaryOk then
    let baseName := stemOfFilename filename
    let out := moveSiblings o.sidecarOk baseName filename o.listing
    if out.2 then
      { newResult := { r with imagePath := targetPath }
        targetDir := targetDir
        sidecarsTried := out.1
        movedInc := 1
        skippedInc := 0 }
    else
      { newResult := r
        targetDir := targetDir
        sidecarsTried := out.1
        movedInc := 1
        skippedInc := 1 }
  else
    { newResult := r
      targetDir := targetDir
      sidecarsTried := []
      movedInc := 0
      skippedInc := 1 }

/-- `move_images_by_classification` (src/example_usage.py
lines 175-240) over a list of results paired with the filesystem
responses each one receives: the processed results in order, the
`moved_count` tally and the `skipped_count` tally. -/
def move_images_by_classification (base : String) :
    List (MoveOracle × ClassificationResult) →
      List ClassificationResult × Nat × Nat
  | [] => ([], 0, 0)
  | (o, r) :: rest =>
    let s := processResult base o r
    let out := move_images_by_classification base rest
    (s.newResult :: out.1, s.movedInc + out.2.1, s.skippedInc + out.2.2)

/-- The sidecar loop restricted to the files that pass the sibling
test: move each in order, stopping at (and including) the first
failure. -/
def sibWalk (ok : String → Bool) : List String → List String × Bool
  | [] => ([], true)
  | f :: fs =>
    if ok f then
      let out := sibWalk ok fs
      (f :: out.1, out.2)
    else ([f], false)

/-- The sidecar loop is the restricted walk over the sibling-filtered
listing. -/
theorem moveSiblings_eq_sibWalk (ok : String → Bool) (bn fn : String) :
    ∀ l : List String,
      moveSiblings ok bn fn l
        = sibWalk ok (l.filter (fun g => isSiblingFile bn fn g)) := by
  intro l
  induction l with
  | nil => rfl
  | cons f fs ih =>
    by_cases hs : isSiblingFile bn fn f
    · by_cases hok : ok f <;>
        simp [moveSiblings, List.filter_cons, hs, hok, sibWalk, ih]
    · simp [moveSiblings, List.filter_cons, hs, ih]

/-- A failing walk decomposes the sibling list as a successful prefix,
the first failing file (attempted last) and an untouched suffix. -/
theorem sibWalk_stops (ok : String → Bool) :
    ∀ sibs : List String, (sibWalk ok sibs).2 = false →
      ∃ pre f suf, sibs = pre ++ f :: suf ∧
        (∀ x ∈ pre, ok x = true) ∧ ok f = false ∧
        (sibWalk ok sibs).1 = pre ++ [f] := by
  intro sibs
  induction sibs with
  | nil => intro h; simp [sibWalk] at h
  | cons f fs ih =>
    intro h
    by_cases hok : ok f
    · have h2 : (sibWalk ok fs).2 = false := by
        simpa [sibWalk, hok] using h
      obtain ⟨pre, g, suf, heq, hpre, hg, htried⟩ := ih h2
      refine ⟨f :: pre, g, suf, by simp [heq], ?_, hg, ?_⟩
      · intro x hx
        rcases List.mem_cons.mp hx with hx | hx
        · subst hx; exact hok
        · exact hpre x hx
      · simp [sibWalk, hok, htried]
    · refine ⟨[], f, fs, by simp, by simp, by simpa using hok, ?_⟩
      simp [sibWalk, hok]

/-- When every sibling move succeeds, the walk attempts exactly the
whole sibling list and completes. -/
theorem sibWalk_of_all_ok (ok : String → Bool) :
    ∀ sibs : List String, (∀ x ∈ sibs, ok x = true) →
      sibWalk ok sibs = (sibs, true) := by
  intro sibs
  induction sibs with
  | nil => intro _; rfl
  | cons f fs ih =>
    intro h
    have hok : ok f = true := h f (List.mem_cons_self f fs)
    have hrest := ih (fun x hx => h x (List.mem_cons_of_mem f hx))
    simp [sibWalk, hok, hrest]

/-- A minimal result record with unset hierarchy slots, used by the
concrete organizer instances. -/
def mkRes (p : String) : ClassificationResult :=
  { imagePath := p, photoId := none, taxonId := none, taxonName := none,
    commonName := none, score := 0,
    hierarchy := { subfamily := none, tribe := none, genus := none } }

/-- The filesystem responses of the C2 counterexample: the primary move
succeeds, the directory holds two sidecars, and moving the first
sidecar raises while the second would succeed. -/
def c2o : MoveOracle :=
  { primaryOk := true
    listing := ["IMG_001.XMP", "IMG_001.RAW"]
    sidecarOk := fun f => f == "IMG_001.RAW" }

/-- C2 fails on the code: with a successful primary move and a failing
first sidecar move, the second sidecar — a genuine sibling whose move
would succeed — is never attempted, the result's imagePath is left at
its old value instead of being updated, and the result is additionally
counted as skipped. -/
theorem C2_counterexample :
    (processResult "target" c2o (mkRes "src/IMG_001.JPG")).sidecarsTried
      = ["IMG_001.XMP"] ∧
    "IMG_001.RAW" ∉
      (processResult "target" c2o (mkRes "src/IMG_001.JPG")).sidecarsTried ∧
    isSiblingFile "IMG_001" "IMG_001.JPG" "IMG_001.RAW" = true ∧
    c2o.sidecarOk "IMG_001.RAW" = true ∧
    (processResult "target" c2o (mkRes "src/IMG_001.JPG")).newResult.imagePath
      = "src/IMG_001.JPG" ∧
    (processResult "target" c2o (mkRes "src/IMG_001.JPG")).movedInc = 1 ∧
    (processResult "target" c2o (mkRes "src/IMG_001.JPG")).skippedInc = 1 := by
  decide

/-- C2 as amended: when the primary move succeeds and some sidecar move
fails, the primary move itself is not undone (the result still counts
as moved), but the failure aborts the rest of that result's processing:
the attempted sidecars are exactly a successful prefix of the sibling
list followed by the first failing one, the sidecars after the failure
are not attempted, the result's imagePath is left unchanged, and the
result additionally increments the skipped tally. -/
theorem C2_sidecar_failure_severs (base : String) (o : MoveOracle)
    (r : ClassificationResult)
    (hp : o.primaryOk = true)
    (hf : (moveSiblings o.sidecarOk (stemOfFilename (basename r.imagePath))
        (basename r.imagePath) o.listing).2 = false) :
    processResult base o r =
      { newResult := r
        targetDir := targetDirOf base r
        sidecarsTried := (moveSiblings o.sidecarOk
          (stemOfFilename (basename r.imagePath)) (basename r.imagePath)
          o.listing).1
        movedInc := 1
        skippedInc := 1 } ∧
    ∃ pre f suf,
      o.listing.filter (fun g => isSiblingFile
          (stemOfFilename (basename r.imagePath)) (basename r.imagePath) g)
        = pre ++ f :: suf ∧
      (∀ x ∈ pre, o.sidecarOk x = true) ∧
      o.sidecarOk f = false ∧
      (processResult base o r).sidecarsTried = pre ++ [f] := by
  have hms := moveSiblings_eq_sibWalk o.sidecarOk
    (stemOfFilename (basename r.imagePath)) (basename r.imagePath) o.listing
  have hstep : processResult base o r =
      { newResult := r
        targetDir := targetDirOf base r
        sidecarsTried := (moveSiblings o.sidecarOk
          (stemOfFilename (basename r.imagePath)) (basename r.imagePath)
          o.listing).1
        movedInc := 1
        skippedInc := 1 } := by
    simp [processResult, hp, hf]
  have hf' : (sibWalk o.sidecarOk
      (o.listing.filter (fun g => isSiblingFile
        (stemOfFilename (basename r.imagePath)) (basename r.imagePath) g))).2
      = false := by
    rw [← hms]
    exact hf
  obtain ⟨pre, f, suf, heq, hpre, hfl, htried⟩ := sibWalk_stops _ _ hf'
  refine ⟨hstep, pre, f, suf, heq, hpre, hfl, ?_⟩
  rw [hstep]
  show (moveSiblings o.sidecarOk (stemOfFilename (basename r.imagePath))
    (basename r.imagePath) o.listing).1 = pre ++ [f]
  rw [hms]
  exact htried

/-- The C2 witness oracle: one sidecar whose move raises. -/
def c2wo : MoveOracle :=
  { primaryOk := true
    listing := ["A_1.XMP"]
    sidecarOk := fun _ => false }

/-- Closed instance of the amended C2 on a one-sidecar directory whose
sidecar move fails. -/
theorem C2_witness :
    c2wo.primaryOk = true ∧
    (moveSiblings c2wo.sidecarOk (stemOfFilename (basename "d/A_1.JPG"))
      (basename "d/A_1.JPG") c2wo.listing).2 = false ∧
    (processResult "t" c2wo (mkRes "d/A_1.JPG") =
      { newResult := mkRes "d/A_1.JPG"
        targetDir := targetDirOf "t" (mkRes "d/A_1.JPG")
        sidecarsTried := (moveSiblings c2wo.sidecarOk
          (stemOfFilename (basename (mkRes "d/A_1.JPG").imagePath))
          (basename (mkRes "d/A_1.JPG").imagePath) c2wo.listing).1
        movedInc := 1
        skippedInc := 1 } ∧
    ∃ pre f suf,
      c2wo.listing.filter (fun g => isSiblingFile
          (stemOfFilename (basename (mkRes "d/A_1.JPG").imagePath))
          (basename (mkRes "d/A_1.JPG").imagePath) g)
        = pre ++ f :: suf ∧
      (∀ x ∈ pre, c2wo.sidecarOk x = true) ∧
      c2wo.sidecarOk f = false ∧
      (processResult "t" c2wo (mkRes "d/A_1.JPG")).sidecarsTried
        = pre ++ [f]) :=
  ⟨by decide, by decide,
   C2_sidecar_failure_severs "t" c2wo (mkRes "d/A_1.JPG")
     (by decide) (by decide)⟩

/-- Stated from the spec's words: `file` shares `filename`'s base name
(stem) but has a different extension, under `os.path.splitext`
semantics. -/
def sameStemDiffExt (filename file : String) : Bool :=
  (splitextRootChars file.toList == splitextRootChars filename.toList)
    && !(splitextExtChars file.toList == splitextExtChars filename.toList)

/-- The filesystem responses of the C7 counterexample: the source
directory also holds a file named exactly "IMG_001" (same stem as the
primary "IMG_001.JPG", empty extension), and every move succeeds. -/
def c7o : MoveOracle :=
  { primaryOk := true
    listing := ["IMG_001"]
    sidecarOk := fun _ => true }

/-- C7 fails on the code: the file "IMG_001" shares the primary image's
stem and has a different (empty) extension, yet after the successful
primary move of "IMG_001.JPG" — whose imagePath is duly rewritten — no
sidecar move is attempted for it, because the code's sibling test
requires the name to start with the stem followed by a dot. -/
theorem C7_counterexample :
    sameStemDiffExt "IMG_001.JPG" "IMG_001" = true ∧
    "IMG_001" ∈ c7o.listing ∧
    (processResult "target" c7o (mkRes "src/IMG_001.JPG")).newResult.imagePath
      = joinPath (targetDirOf "target" (mkRes "src/IMG_001.JPG")) "IMG_001.JPG" ∧
    (processResult "target" c7o (mkRes "src/IMG_001.JPG")).sidecarsTried = [] := by
  decide

/-- C7 as amended: after a successful primary move whose sidecar moves
all succeed, the organizer relocates exactly those other files of the
source directory whose names start with the image's stem followed by a
dot (so every sibling such as "IMG_001.XMP" is moved, while files
lacking that prefix — unrelated stems, or a same-stem file with no
extension — are not touched), each sent into the same target directory
as the primary file. -/
theorem C7_stem_dot_sibling_comovement (base : String) (o : MoveOracle)
    (r : ClassificationResult)
    (hp : o.primaryOk = true)
    (hok : ∀ g ∈ o.listing.filter (fun g => isSiblingFile
        (stemOfFilename (basename r.imagePath)) (basename r.imagePath) g),
      o.sidecarOk g = true) :
    (processResult base o r).sidecarsTried
      = o.listing.filter (fun g => isSiblingFile
          (stemOfFilename (basename r.imagePath)) (basename r.imagePath) g) ∧
    (∀ g ∈ o.listing,
      isSiblingFile (stemOfFilename (basename r.imagePath))
          (basename r.imagePath) g = false →
        g ∉ (processResult base o r).sidecarsTried) ∧
    (processResult base o r).targetDir = targetDirOf base r ∧
    (processResult base o r).newResult.imagePath
      = joinPath (targetDirOf base r) (basename r.imagePath) := by
  have hms := moveSiblings_eq_sibWalk o.sidecarOk
    (stemOfFilename (basename r.imagePath)) (basename r.imagePath) o.listing
  have hwalk := sibWalk_of_all_ok o.sidecarOk
    (o.listing.filter (fun g => isSiblingFile
      (stemOfFilename (basename r.imagePath)) (basename r.imagePath) g)) hok
  have hall : moveSiblings o.sidecarOk (stemOfFilename (basename r.imagePath))
      (basename r.imagePath) o.listing
      = (o.listing.filter (fun g => isSiblingFile
          (stemOfFilename (basename r.imagePath)) (basename r.imagePath) g),
        true) := by
    rw [hms, hwalk]
  have htried : (processResult base o r).sidecarsTried
      = o.listing.filter (fun g => isSiblingFile
          (stemOfFilename (basename r.imagePath)) (basename r.imagePath) g) := by
    simp [processResult, hp, hall]
  refine ⟨htried, ?_, ?_, ?_⟩
  · intro g hg hnot
    rw [htried]
    intro hmem
    have := (List.mem_filter.mp hmem).2
    rw [hnot] at this
    exact Bool.false_ne_true this
  · simp [processResult, hp, hall]
  · simp [processResult, hp, hall]

/-- The filesystem responses of the C7 witness: one true sidecar and
one unrelated file, all moves succeeding. -/
def c7wo : MoveOracle :=
  { primaryOk := true
    listing := ["IMG_001.XMP", "IMG_002.JPG"]
    sidecarOk := fun _ => true }

/-- Closed instance of the amended C7: organizing "IMG_001.JPG" moves
"IMG_001.XMP" and leaves "IMG_002.JPG" untouched. -/
theorem C7_witness :
    c7wo.primaryOk = true ∧
    (∀ g ∈ c7wo.listing.filter (fun g => isSiblingFile
        (stemOfFilename (basename (mkRes "src/IMG_001.JPG").imagePath))
        (basename (mkRes "src/IMG_001.JPG").imagePath) g),
      c7wo.sidecarOk g = true) ∧
    ((processResult "t" c7wo (mkRes "src/IMG_001.JPG")).sidecarsTried
      = c7wo.listing.filter (fun g => isSiblingFile
          (stemOfFilename (basename (mkRes "src/IMG_001.JPG").imagePath))
          (basename (mkRes "src/IMG_001.JPG").imagePath) g) ∧
    (∀ g ∈ c7wo.listing,
      isSiblingFile (stemOfFilename (basename (mkRes "src/IMG_001.JPG").imagePath))
          (basename (mkRes "src/IMG_001.JPG").imagePath) g = false →
        g ∉ (processResult "t" c7wo (mkRes "src/IMG_001.JPG")).sidecarsTried) ∧
    (processResult "t" c7wo (mkRes "src/IMG_001.JPG")).targetDir
      = targetDirOf "t" (mkRes "src/IMG_001.JPG") ∧
    (processResult "t" c7wo (mkRes "src/IMG_001.JPG")).newResult.imagePath
      = joinPath (targetDirOf "t" (mkRes "src/IMG_001.JPG"))
          (basename (mkRes "src/IMG_001.JPG").imagePath)) :=
  ⟨by decide, by decide,
   C7_stem_dot_sibling_comovement "t" c7wo (mkRes "src/IMG_001.JPG")
     (by decide) (by decide)⟩

/-- C8: a result whose primary move raises is caught and counted as
skipped with its imagePath left unchanged and no sidecar attempted,
while the organizer still processes every result of the list in order;
conversely a result's imagePath is only ever rewritten — to the target
location — when its primary move (and sidecar phase) succeeded, and at
most once, the organizer's output being the one-pass elementwise map of
`processResult`. -/
theorem C8_primary_move_failure_skips (base : String) :
    (∀ items : List (MoveOracle × ClassificationResult),
      (move_images_by_classification base items).1
        = items.map (fun p => (processResult base p.1 p.2).newResult)) ∧
    (∀ (o : MoveOracle) (r : ClassificationResult), o.primaryOk = false →
      processResult base o r
        = { newResult := r
            targetDir := targetDirOf base r
            sidecarsTried := []
            movedInc := 0
            skippedInc := 1 }) ∧
    (∀ (o : MoveOracle) (r : ClassificationResult),
      (processResult base o r).newResult.imagePath ≠ r.imagePath →
        o.primaryOk = true ∧
        (processResult base o r).newResult
          = { r with imagePath :=
                joinPath (targetDirOf base r) (basename r.imagePath) }) := by
  refine ⟨?_, ?_, ?_⟩
  · intro items
    induction items with
    | nil => rfl
    | cons p rest ih =>
      obtain ⟨o, r⟩ := p
      simp [move_images_by_classification, ih]
  · intro o r h
    simp [processResult, h]
  · intro o r hne
    by_cases hp : o.primaryOk
    · refine ⟨hp, ?_⟩
      by_cases hw : (moveSiblings o.sidecarOk (stemOfFilename (basename r.imagePath))
          (basename r.imagePath) o.listing).2
      · simp [processResult, hp, hw]
      · exfalso
        apply hne
        simp [processResult, hp, hw]
    · exfalso
      apply hne
      simp [processResult, hp]

/-- The C8 witness oracle: the primary move raises. -/
def c8wo : MoveOracle :=
  { primaryOk := false
    listing := ["B_2.XMP"]
    sidecarOk := fun _ => true }

/-- Closed instance of C8: a failing primary move leaves the result
untouched, attempts no sidecar and counts one skip, and the organizer
still emits an output entry for it. -/
theorem C8_witness :
    c8wo.primaryOk = false ∧
    processResult "t" c8wo (mkRes "d/B_2.JPG")
      = { newResult := mkRes "d/B_2.JPG"
          targetDir := targetDirOf "t" (mkRes "d/B_2.JPG")
          sidecarsTried := []
          movedInc := 0
          skippedInc := 1 } ∧
    (move_images_by_classification "t" [(c8wo, mkRes "d/B_2.JPG")]).1
      = [(processResult "t" c8wo (mkRes "d/B_2.JPG")).newResult] :=
  ⟨by decide,
   (C8_primary_move_failure_skips "t").2.1 c8wo (mkRes "d/B_2.JPG") (by decide),
   (C8_primary_move_failure_skips "t").1 [(c8wo, mkRes "d/B_2.JPG")]⟩

/-- The double-count condition of the organizer loop: the primary move
succeeded and the subsequent sidecar phase raised. -/
def sidecarFailedAfterMove (o : MoveOracle) (r : ClassificationResult) : Bool :=
  o.primaryOk &&
    !((moveSiblings o.sidecarOk (stemOfFilename (basename r.imagePath))
        (basename r.imagePath) o.listing).2)

/-- Each result's contribution to the two tallies: one, plus an extra
count exactly in the moved-then-sidecar-failed case. -/
theorem processResult_tally (base : String) (o : MoveOracle)
    (r : ClassificationResult) :
    (processResult base o r).movedInc + (processResult base o r).skippedInc
      = 1 + (if sidecarFailedAfterMove o r then 1 else 0) := by
  by_cases hp : o.primaryOk <;>
    by_cases hw : (moveSiblings o.sidecarOk (stemOfFilename (basename r.imagePath))
        (basename r.imagePath) o.listing).2 <;>
    simp [processResult, sidecarFailedAfterMove, hp, hw]

/-- C10: every result increments exactly one of the two tallies except
when its primary move succeeds and the sidecar phase then raises, in
which case it increments both; hence movedCount + skippedCount equals
the number of results plus the number of double-counted results, and
equals the number of results exactly in runs where no sidecar move
fails after a successful primary move. -/
theorem C10_tally_accounting (base : String)
    (items : List (MoveOracle × ClassificationResult)) :
    (move_images_by_classification base items).2.1
        + (move_images_by_classification base items).2.2
      = items.length + items.countP (fun p => sidecarFailedAfterMove p.1 p.2) ∧
    ((move_images_by_classification base items).2.1
        + (move_images_by_classification base items).2.2 = items.length
      ↔ ∀ p ∈ items, sidecarFailedAfterMove p.1 p.2 = false) ∧
    (∀ (o : MoveOracle) (r : ClassificationResult),
      (processResult base o r).movedInc + (processResult base o r).skippedInc
        = 1 + (if sidecarFailedAfterMove o r then 1 else 0)) := by
  have hsum : ∀ its : List (MoveOracle × ClassificationResult),
      (move_images_by_classification base its).2.1
          + (move_images_by_classification base its).2.2
        = its.length + its.countP (fun p => sidecarFailedAfterMove p.1 p.2) := by
    intro its
    induction its with
    | nil => rfl
    | cons p rest ih =>
      obtain ⟨o, r⟩ := p
      have ht := processResult_tally base o r
      simp only [move_images_by_classification, List.countP_cons, List.length_cons]
      by_cases hb : sidecarFailedAfterMove o r <;>
        simp [hb] at ht ⊢ <;> omega
  refine ⟨hsum items, ?_, fun o r => processResult_tally base o r⟩
  rw [hsum items]
  have harith :
      (items.length + items.countP (fun p => sidecarFailedAfterMove p.1 p.2)
        = items.length)
      ↔ items.countP (fun p => sidecarFailedAfterMove p.1 p.2) = 0 := by
    omega
  rw [harith, List.countP_eq_zero]
  simp [Bool.not_eq_true]

/-- The C10 witness oracle: primary move succeeds, the single sidecar
move raises. -/
def c10wo : MoveOracle :=
  { primaryOk := true
    listing := ["B_1.XMP"]
    sidecarOk := fun _ => false }

/-- Closed instance of C10: one result whose sidecar phase fails after
a successful primary move makes both tallies increment, so their sum
exceeds the result count by one. -/
theorem C10_witness :
    (move_images_by_classification "t" [(c10wo, mkRes "s/B_1.JPG")]).2.1
      + (move_images_by_classification "t" [(c10wo, mkRes "s/B_1.JPG")]).2.2
      = [(c10wo, mkRes "s/B_1.JPG")].length
        + [(c10wo, mkRes "s/B_1.JPG")].countP
            (fun p => sidecarFailedAfterMove p.1 p.2) :=
  (C10_tally_accounting "t" [(c10wo, mkRes "s/B_1.JPG")]).1
